import Mathlib

/-!
Shallow embedding of the naming-assistance core of the mySave repository:
pkg/ai/rename.go (the NameGenerator and NameSanitizer) and the package-level
singleton wiring around it, together with the config.AIRename record.

A Go string holding valid UTF-8 is modelled as the list of its Unicode code
points; the Go expression len(s) is the UTF-8 byte length, modelled by
summing the UTF-8 size of every code point.  A Go runtime panic is modelled
by Option.none.  The single HTTP exchange performed by callAI is supplied to
the embedded functions as an explicit outcome value, so that the functions
stay pure and the no-network-call facts become constancy in that argument.
-/

namespace SaveAny

/-- A Go string as its sequence of Unicode code points (runes). -/
abbrev GoStr := List Char

/-- Byte length of a Go string, len(s) in Go: the sum of the UTF-8 sizes of
its runes. -/
def byteLen (l : GoStr) : Nat := (l.map Char.utf8Size).sum

/-- The underscore character, written by code point to keep the character
set definitions uniform. -/
def underscoreChar : Char := Char.ofNat 95

/-- Cutset of the first strings.Trim in the sanitizer: double quote (34),
single quote (39) and backtick (96). -/
def isQuoteChar (c : Char) : Bool :=
  c.toNat = 34 || c.toNat = 39 || c.toNat = 96

/-- unicode.IsSpace from the Go standard library, used by strings.TrimSpace:
the Unicode White_Space code points. -/
def goIsSpace (c : Char) : Bool :=
  (9 ≤ c.toNat && c.toNat ≤ 13) || c.toNat = 32 || c.toNat = 133 ||
  c.toNat = 160 || c.toNat = 5760 || (8192 ≤ c.toNat && c.toNat ≤ 8202) ||
  c.toNat = 8232 || c.toNat = 8233 || c.toNat = 8239 || c.toNat = 8287 ||
  c.toNat = 12288

/-- Character class of the invalidChars regexp in the sanitizer: the nine
reserved characters less-than, greater-than, colon, double quote, slash,
backslash, pipe, question mark and asterisk. -/
def isReservedChar (c : Char) : Bool :=
  c.toNat = 60 || c.toNat = 62 || c.toNat = 58 || c.toNat = 34 ||
  c.toNat = 47 || c.toNat = 92 || c.toNat = 124 || c.toNat = 63 ||
  c.toNat = 42

/-- The RE2 character class of a backslash-s escape, which is ASCII only:
tab, line feed, form feed, carriage return and space.  Vertical tab and the
non-ASCII Unicode spaces are NOT included, matching Go regexp semantics. -/
def isReSpace (c : Char) : Bool :=
  c.toNat = 9 || c.toNat = 10 || c.toNat = 12 || c.toNat = 13 ||
  c.toNat = 32

/-- Character class of the multiSpace regexp in the sanitizer: an RE2
backslash-s character or an underscore. -/
def isCollapseChar (c : Char) : Bool := isReSpace c || c = underscoreChar

/-- Drop matching characters from the end of a list (TrimRight). -/
def dropEndWhile (p : Char → Bool) (l : GoStr) : GoStr :=
  (l.reverse.dropWhile p).reverse

/-- strings.Trim and strings.TrimSpace: drop characters matching p from
both ends of the string. -/
def goTrim (p : Char → Bool) (l : GoStr) : GoStr :=
  dropEndWhile p (l.dropWhile p)

/-- strings.TrimSpace. -/
def goTrimSpace (l : GoStr) : GoStr := goTrim goIsSpace l

/-- Replacement of each maximal run of collapse characters by one single
underscore, as the multiSpace regexp ReplaceAllString does.  The flag
records whether the scan currently sits inside a run whose replacement
underscore was already emitted. -/
def collapseAux : Bool → GoStr → GoStr
  | _, [] => []
  | inRun, c :: rest =>
    if isCollapseChar c then
      if inRun then collapseAux true rest
      else underscoreChar :: collapseAux true rest
    else c :: collapseAux false rest

/-- multiSpace.ReplaceAllString(name, underscore). -/
def collapseRuns (l : GoStr) : GoStr := collapseAux false l

/-- invalidChars.ReplaceAllString(name, underscore), per character. -/
def replaceReserved (c : Char) : Char :=
  if isReservedChar c then underscoreChar else c

/-- Length limiting tail of cleanFileName and cleanFolderName.  The Go code
tests len(name) greater than the limit in BYTES and then evaluates
string(runes[:limit]) on the RUNE slice; when the string has fewer runes
than the limit that slice expression exceeds the slice capacity (the rune
slice produced by the conversion has capacity equal to its length rounded
up to the allocator size class, far below 50 at the inputs considered
here) and the call panics, modelled as none. -/
def truncateRunes (limit : Nat) (l : GoStr) : Option GoStr :=
  if byteLen l > limit then
    if limit ≤ l.length then some (l.take limit) else none
  else some l

/-- The common pipeline of cleanFileName and cleanFolderName before the
length limit: trim quotes, trim space, replace reserved characters,
collapse whitespace and underscore runs, trim underscores. -/
def cleanCore (name : GoStr) : GoStr :=
  goTrim (fun c => c = underscoreChar)
    (collapseRuns
      ((goTrim goIsSpace (goTrim isQuoteChar name)).map replaceReserved))

/-- Common body of cleanFileName and cleanFolderName; the two Go functions
are textually identical except for the length limit (50 and 30). -/
def cleanName (limit : Nat) (name : GoStr) : Option GoStr :=
  truncateRunes limit (cleanCore name)

/-- cleanFileName from rename.go. -/
def cleanFileName (name : GoStr) : Option GoStr := cleanName 50 name

/-- cleanFolderName from rename.go. -/
def cleanFolderName (name : GoStr) : Option GoStr := cleanName 30 name

/-- filepath.Ext: walking the path backwards, the extension begins at the
last dot (46) of the final element; a path separator (47) ends the search.
The accumulator carries the characters already passed, in order. -/
def extFromRev : GoStr → GoStr → GoStr
  | [], _ => []
  | c :: restRev, acc =>
    if c.toNat = 47 then []
    else if c.toNat = 46 then c :: acc
    else extFromRev restRev (c :: acc)

/-- filepath.Ext from the Go standard library. -/
def filepathExt (path : GoStr) : GoStr := extFromRev path.reverse []

/-- APIError from rename.go. -/
structure APIError where
  message : GoStr
  errType : GoStr
  code : GoStr
deriving DecidableEq

/-- ChatMessage from rename.go. -/
structure ChatMessage where
  role : GoStr
  content : GoStr
deriving DecidableEq

/-- ChatChoice from rename.go. -/
structure ChatChoice where
  message : ChatMessage
deriving DecidableEq

/-- ChatResponse from rename.go. -/
structure ChatResponse where
  choices : List ChatChoice
  error : Option APIError
deriving DecidableEq

/-- An HTTP response body as callAI sees it: the raw bytes together with
the result of json.Unmarshal into ChatResponse. -/
inductive RespBody where
  | malformed (raw : GoStr)
  | parsed (raw : GoStr) (resp : ChatResponse)
deriving DecidableEq

/-- Raw bytes of a body, used in the diagnostic of the status check. -/
def RespBody.raw : RespBody → GoStr
  | .malformed r => r
  | .parsed r _ => r

/-- Outcome of the single HTTP exchange of callAI, as seen at the call
site: a client.Do error, an io.ReadAll error, or a status code with a
body. -/
inductive HttpOutcome where
  | transportErr (msg : GoStr)
  | readErr (msg : GoStr)
  | response (status : Nat) (body : RespBody)
deriving DecidableEq

/-- The errors callAI can return, one constructor per return site, in
source order. -/
inductive CallErr where
  | sendRequest (msg : GoStr)
  | readResponse (msg : GoStr)
  | apiStatus (status : Nat) (body : GoStr)
  | unmarshal (raw : GoStr)
  | apiErrField (msg : GoStr)
  | noChoices
deriving DecidableEq

/-- callAI from rename.go as a function of the HTTP outcome.  The checks
run in source order and the first failing one returns: transport error,
read error, status different from 200 (http.StatusOK), unmarshal failure,
explicit error field, empty choices; on success the first choice content is
trimmed of surrounding white space. -/
def callAI (net : HttpOutcome) : Except CallErr GoStr :=
  match net with
  | .transportErr m => .error (.sendRequest m)
  | .readErr m => .error (.readResponse m)
  | .response status body =>
    if status ≠ 200 then .error (.apiStatus status body.raw)
    else
      match body with
      | .malformed raw => .error (.unmarshal raw)
      | .parsed _ resp =>
        match resp.error with
        | some e => .error (.apiErrField e.message)
        | none =>
          match resp.choices with
          | [] => .error .noChoices
          | c :: _ => .ok (goTrimSpace c.message.content)

/-- config.AIRename from the config package. -/
structure AIRename where
  enable : Bool
  endpoint : GoStr
  model : GoStr
  apiKey : GoStr
  prompt : GoStr
  timeout : Int
  maxTokens : Int
  temperature : Float

/-- GenerateFileName from rename.go.  The remote exchange is an oracle
argument; none models a panic escaping the call. -/
def generateFileName (cfg : AIRename) (messageText originalFileName : GoStr)
    (net : HttpOutcome) : Option (GoStr × Option CallErr) :=
  if cfg.enable = false then some (originalFileName, none)
  else if messageText = [] then some (originalFileName, none)
  else
    match callAI net with
    | .error e => some (originalFileName, some e)
    | .ok newName =>
      match cleanFileName newName with
      | none => none
      | some cleaned =>
        if cleaned = [] then some (originalFileName, none)
        else
          let ext := filepathExt originalFileName
          if ext.isSuffixOf cleaned then some (cleaned, none)
          else some (cleaned ++ ext, none)

/-- GenerateFolderName from rename.go; same shape, no extension handling. -/
def generateFolderName (cfg : AIRename) (messageText defaultName : GoStr)
    (net : HttpOutcome) : Option (GoStr × Option CallErr) :=
  if cfg.enable = false then some (defaultName, none)
  else if messageText = [] then some (defaultName, none)
  else
    match callAI net with
    | .error e => some (defaultName, some e)
    | .ok newName =>
      match cleanFolderName newName with
      | none => none
      | some cleaned =>
        if cleaned = [] then some (defaultName, none)
        else some (cleaned, none)

/-- A constructed RenameService: NewRenameService allocates a fresh HTTP
client, so every construction yields a distinct instance; the id field
models that identity, the cfg field the captured configuration. -/
structure RenameService where
  id : Nat
  cfg : AIRename

/-- NewRenameService from rename.go, given a fresh identity. -/
def NewRenameService (cfg : AIRename) (fresh : Nat) : RenameService :=
  ⟨fresh, cfg⟩

/-- Modelled from the spec: config.Cfg, the process-global configuration
record, is declared in the config package outside the sources at hand;
only its identity as THE global record matters to the claims, never its
field values, so an arbitrary fixed record stands for it. -/
def globalAIRename : AIRename := ⟨false, [], [], [], [], 0, 0, 0⟩

/-- Package-level state of the ai singleton wiring: the renameService
variable, the sync.Once guard, and an allocation counter supplying fresh
instance identities. -/
structure PkgState where
  renameService : Option RenameService
  onceDone : Bool
  nextId : Nat

/-- GetRenameService: once.Do runs the guarded constructor on the first
call only (building from the global configuration), after which the shared
variable is returned unchanged. -/
def getRenameService (st : PkgState) : Option RenameService × PkgState :=
  if st.onceDone then (st.renameService, st)
  else
    let s := NewRenameService globalAIRename st.nextId
    (some s, ⟨some s, true, st.nextId + 1⟩)

/-- InitRenameService: overwrites the shared variable directly, without
touching the once guard. -/
def initRenameService (cfg : AIRename) (st : PkgState) : PkgState :=
  ⟨some (NewRenameService cfg st.nextId), st.onceDone, st.nextId + 1⟩

/-- Absence of a double underscore: no two adjacent characters of the
string are both underscores. -/
def noDoubleU (l : GoStr) : Prop :=
  List.Chain' (fun a b => ¬(a = underscoreChar ∧ b = underscoreChar)) l

/-- A character acceptable at the edge of an already sanitized name: not a
quote, not white space, not an underscore. -/
def edgeOk (c : Char) : Bool :=
  !(isQuoteChar c || goIsSpace c || c = underscoreChar)

/-- Both edges of a string are acceptable for re-sanitization. -/
def edgesOk (l : GoStr) : Bool :=
  l.head?.all edgeOk && l.getLast?.all edgeOk

deriving instance DecidableEq for Except

/-- Recognizer of the status-check failure among the callAI results. -/
def isStatusErr : Except CallErr GoStr → Bool
  | .error (.apiStatus _ _) => true
  | _ => false

/-- A sample enabled configuration for concrete instances. -/
def sampleCfg : AIRename := ⟨true, [], [], [], [], 0, 0, 0⟩

/-- A sample disabled configuration for concrete instances. -/
def disabledCfg : AIRename := ⟨false, [], [], [], [], 0, 0, 0⟩

/-- A successful HTTP outcome carrying the given candidate content. -/
def okNet (content : GoStr) : HttpOutcome :=
  .response 200 (.parsed [] ⟨[⟨⟨("assistant").data, content⟩⟩], none⟩)

/-- Helper: dropWhile is the identity when the first character does not
match. -/
lemma dropWhile_eq_self_of_head (p : Char → Bool) (l : GoStr)
    (h : ∀ c, l.head? = some c → p c = false) : l.dropWhile p = l := by
  cases l with
  | nil => rfl
  | cons a t => simp [List.dropWhile_cons, h a rfl]

/-- Helper: dropEndWhile is the identity when the last character does not
match. -/
lemma dropEndWhile_eq_self_of_getLast (p : Char → Bool) (l : GoStr)
    (h : ∀ c, l.getLast? = some c → p c = false) : dropEndWhile p l = l := by
  unfold dropEndWhile
  rw [dropWhile_eq_self_of_head p l.reverse
    (fun c hc => h c (by rwa [List.head?_reverse] at hc)), List.reverse_reverse]

/-- Helper: goTrim is the identity when neither edge character matches. -/
lemma goTrim_eq_self (p : Char → Bool) (l : GoStr)
    (h1 : ∀ c, l.head? = some c → p c = false)
    (h2 : ∀ c, l.getLast? = some c → p c = false) : goTrim p l = l := by
  unfold goTrim
  rw [dropWhile_eq_self_of_head p l h1, dropEndWhile_eq_self_of_getLast p l h2]

/-- Helper: reserved character replacement never produces a reserved
character. -/
lemma replaceReserved_ok (c : Char) : isReservedChar (replaceReserved c) = false := by
  cases hb : isReservedChar c with
  | true =>
    have h : replaceReserved c = underscoreChar := by simp [replaceReserved, hb]
    rw [h]; decide
  | false =>
    have h : replaceReserved c = c := by simp [replaceReserved, hb]
    rw [h]; exact hb

/-- Helper: reserved character replacement is the identity on strings
without reserved characters. -/
lemma map_replaceReserved_id (l : GoStr) (h : ∀ c ∈ l, isReservedChar c = false) :
    l.map replaceReserved = l := by
  induction l with
  | nil => rfl
  | cons a t ih =>
    have ha := h a (List.mem_cons_self a t)
    simp [replaceReserved, ha, ih (fun c hc => h c (List.mem_cons_of_mem a hc))]

/-- Helper: every character of the collapsed string is an underscore or a
non-collapse character of the input. -/
lemma mem_collapseAux (c : Char) :
    ∀ (l : GoStr) (flag : Bool), c ∈ collapseAux flag l →
      c = underscoreChar ∨ (c ∈ l ∧ isCollapseChar c = false) := by
  intro l
  induction l with
  | nil => intro flag h; simp [collapseAux] at h
  | cons a t ih =>
    intro flag h
    by_cases ha : isCollapseChar a
    · cases flag with
      | true =>
        rw [show collapseAux true (a :: t) = collapseAux true t by
          simp [collapseAux, ha]] at h
        rcases ih true h with h1 | ⟨h2, h3⟩
        · exact Or.inl h1
        · exact Or.inr ⟨List.mem_cons_of_mem a h2, h3⟩
      | false =>
        rw [show collapseAux false (a :: t) = underscoreChar :: collapseAux true t by
          simp [collapseAux, ha]] at h
        rcases List.mem_cons.mp h with h1 | h1
        · exact Or.inl h1
        · rcases ih true h1 with h2 | ⟨h2, h3⟩
          · exact Or.inl h2
          · exact Or.inr ⟨List.mem_cons_of_mem a h2, h3⟩
    · rw [show collapseAux flag (a :: t) = a :: collapseAux false t by
        simp [collapseAux, ha]] at h
      rcases List.mem_cons.mp h with h1 | h1
      · subst h1; exact Or.inr ⟨List.mem_cons_self c t, by simpa using ha⟩
      · rcases ih false h1 with h2 | ⟨h2, h3⟩
        · exact Or.inl h2
        · exact Or.inr ⟨List.mem_cons_of_mem a h2, h3⟩

/-- Helper: after an emitted underscore the collapse scan never emits a
collapse character first. -/
lemma head_collapseAux_true :
    ∀ (l : GoStr) (c : Char), (collapseAux true l).head? = some c →
      isCollapseChar c = false := by
  intro l
  induction l with
  | nil => intro c h; simp [collapseAux] at h
  | cons a t ih =>
    intro c h
    by_cases ha : isCollapseChar a
    · rw [show collapseAux true (a :: t) = collapseAux true t by
        simp [collapseAux, ha]] at h
      exact ih c h
    · rw [show collapseAux true (a :: t) = a :: collapseAux false t by
        simp [collapseAux, ha]] at h
      rw [List.head?_cons] at h
      injection h with h
      subst h
      simpa using ha

/-- Helper: the collapsed string never contains two adjacent
underscores. -/
lemma chain'_collapseAux : ∀ (l : GoStr) (flag : Bool), noDoubleU (collapseAux flag l) := by
  intro l
  induction l with
  | nil => intro flag; simp [collapseAux, noDoubleU]
  | cons a t ih =>
    intro flag
    by_cases ha : isCollapseChar a
    · cases flag with
      | true =>
        rw [noDoubleU, show collapseAux true (a :: t) = collapseAux true t by
          simp [collapseAux, ha]]
        exact ih true
      | false =>
        rw [noDoubleU, show collapseAux false (a :: t) = underscoreChar :: collapseAux true t by
          simp [collapseAux, ha]]
        refine List.chain'_cons'.mpr ⟨?_, ih true⟩
        intro y hy hcon
        have hy2 := head_collapseAux_true t y (Option.mem_def.mp hy)
        rw [hcon.2] at hy2
        exact absurd hy2 (by decide)
    · rw [noDoubleU, show collapseAux flag (a :: t) = a :: collapseAux false t by
        simp [collapseAux, ha]]
      refine List.chain'_cons'.mpr ⟨?_, ih false⟩
      intro y hy hcon
      rw [hcon.1] at ha
      exact ha (by decide)

/-- Helper: the collapse pass is the identity on strings without regexp
white space and without double underscores. -/
lemma collapseAux_fix :
    ∀ l : GoStr, (∀ c ∈ l, isReSpace c = false) → noDoubleU l →
      collapseAux false l = l ∧
        ((∀ c, l.head? = some c → c ≠ underscoreChar) → collapseAux true l = l) := by
  intro l
  induction l with
  | nil => intro _ _; exact ⟨rfl, fun _ => rfl⟩
  | cons a t ih =>
    intro hsp hch
    have hsa : isReSpace a = false := hsp a (List.mem_cons_self a t)
    have hspt : ∀ c ∈ t, isReSpace c = false :=
      fun c hc => hsp c (List.mem_cons_of_mem a hc)
    obtain ⟨hhead, hcht⟩ := List.chain'_cons'.mp hch
    obtain ⟨ih1, ih2⟩ := ih hspt hcht
    by_cases hau : a = underscoreChar
    · have hac : isCollapseChar a = true := by simp [isCollapseChar, hau]
      have htt : collapseAux true t = t := by
        apply ih2
        intro c hc hc2
        exact hhead c (Option.mem_def.mpr hc) ⟨hau, hc2⟩
      constructor
      · rw [show collapseAux false (a :: t) = underscoreChar :: collapseAux true t by
          simp [collapseAux, hac], htt, hau]
      · intro hh
        exact absurd hau (hh a rfl)
    · have hac : isCollapseChar a = false := by simp [isCollapseChar, hsa, hau]
      constructor
      · simp [collapseAux, hac, ih1]
      · intro _; simp [collapseAux, hac, ih1]

/-- Helper: dropEndWhile yields an initial segment of its input. -/
lemma dropEndWhile_pref (p : Char → Bool) (l : GoStr) : dropEndWhile p l <+: l := by
  unfold dropEndWhile
  have h : l.reverse.dropWhile p <:+ l.reverse := List.dropWhile_suffix p
  have h2 := List.reverse_prefix.mpr h
  rwa [List.reverse_reverse] at h2

/-- Helper: goTrim yields a contiguous middle segment of its input. -/
lemma goTrim_mid (p : Char → Bool) (l : GoStr) : goTrim p l <:+: l := by
  unfold goTrim
  have h1 : dropEndWhile p (l.dropWhile p) <+: l.dropWhile p := dropEndWhile_pref p _
  have h2 : l.dropWhile p <:+ l := List.dropWhile_suffix p
  exact List.IsInfix.trans ( List.IsPrefix.isInfix h1) ( List.IsSuffix.isInfix h2)

/-- Helper: membership transfers along a contiguous middle segment. -/
lemma mem_of_mid {c : Char} {l₁ l₂ : GoStr} (h : l₁ <:+: l₂) (hc : c ∈ l₁) : c ∈ l₂ :=
  h.sublist.subset hc

/-- Helper: the pre-truncation cleaned string contains no reserved
characters, no regexp white space, and no double underscores. -/
lemma cleanCore_inv (name : GoStr) :
    (∀ c ∈ cleanCore name, isReservedChar c = false ∧ isReSpace c = false) ∧
      noDoubleU (cleanCore name) := by
  unfold cleanCore
  set m := (goTrim goIsSpace (goTrim isQuoteChar name)).map replaceReserved with hm
  have hmres : ∀ c ∈ m, isReservedChar c = false := by
    intro c hc
    rw [hm] at hc
    rcases List.mem_map.mp hc with ⟨x, _, hx⟩
    rw [← hx]; exact replaceReserved_ok x
  have h4 : ∀ c ∈ collapseRuns m, isReservedChar c = false ∧ isReSpace c = false := by
    intro c hc
    rcases mem_collapseAux c m false hc with h | ⟨h1, h2⟩
    · subst h; exact ⟨by decide, by decide⟩
    · refine ⟨hmres c h1, ?_⟩
      simp [isCollapseChar] at h2
      exact h2.1
  have hch4 : noDoubleU (collapseRuns m) := chain'_collapseAux m false
  have hmid : goTrim (fun c => c = underscoreChar) (collapseRuns m) <:+: collapseRuns m :=
    goTrim_mid _ _
  exact ⟨fun c hc => h4 c (mem_of_mid hmid hc),  List.Chain'.infix hch4 hmid⟩

/-- Helper: every value returned by the sanitizer satisfies the character
invariants, and either fits the limit in bytes or has exactly limit many
code points. -/
lemma cleanName_inv (limit : Nat) (s r : GoStr) (h : cleanName limit s = some r) :
    (∀ c ∈ r, isReservedChar c = false ∧ isReSpace c = false) ∧ noDoubleU r ∧
      (byteLen r ≤ limit ∨ r.length = limit) := by
  obtain ⟨hmem, hch⟩ := cleanCore_inv s
  unfold cleanName truncateRunes at h
  by_cases hb : byteLen (cleanCore s) > limit
  · rw [if_pos hb] at h
    by_cases hl : limit ≤ (cleanCore s).length
    · rw [if_pos hl] at h
      injection h with h; subst h
      have hpre : (cleanCore s).take limit <:+: cleanCore s :=
         List.IsPrefix.isInfix ( List.take_prefix limit (cleanCore s))
      refine ⟨fun c hc => hmem c (mem_of_mid hpre hc),  List.Chain'.infix hch hpre, Or.inr ?_⟩
      rw [List.length_take]
      exact Nat.min_eq_left hl
    · rw [if_neg hl] at h; exact absurd h (by simp)
  · rw [if_neg hb] at h
    injection h with h; subst h
    exact ⟨hmem, hch, Or.inl (Nat.le_of_not_lt hb)⟩

/-- Helper: unpacking the edge condition. -/
lemma edge_facts {l : GoStr} (he : edgesOk l = true) :
    (∀ c, l.head? = some c →
        isQuoteChar c = false ∧ goIsSpace c = false ∧ c ≠ underscoreChar) ∧
      (∀ c, l.getLast? = some c →
        isQuoteChar c = false ∧ goIsSpace c = false ∧ c ≠ underscoreChar) := by
  rw [edgesOk, Bool.and_eq_true] at he
  constructor
  · intro c hc
    have h1 := he.1
    rw [hc] at h1
    simp [Option.all, edgeOk] at h1
    exact ⟨h1.1.1, h1.1.2, h1.2⟩
  · intro c hc
    have h1 := he.2
    rw [hc] at h1
    simp [Option.all, edgeOk] at h1
    exact ⟨h1.1.1, h1.1.2, h1.2⟩

/-- Helper: the sanitizer is the identity on any of its own outputs whose
edges carry no quote, no white space and no underscore. -/
lemma cleanName_fix (limit : Nat) (r : GoStr)
    (hres : ∀ c ∈ r, isReservedChar c = false ∧ isReSpace c = false)
    (hch : noDoubleU r) (hlen : byteLen r ≤ limit ∨ r.length = limit)
    (he : edgesOk r = true) : cleanName limit r = some r := by
  obtain ⟨hh, hl⟩ := edge_facts he
  have t1 : goTrim isQuoteChar r = r :=
    goTrim_eq_self _ _ (fun c hc => (hh c hc).1) (fun c hc => (hl c hc).1)
  have t2 : goTrim goIsSpace r = r :=
    goTrim_eq_self _ _ (fun c hc => (hh c hc).2.1) (fun c hc => (hl c hc).2.1)
  have t3 : r.map replaceReserved = r :=
    map_replaceReserved_id r (fun c hc => (hres c hc).1)
  have t4 : collapseRuns r = r :=
    (collapseAux_fix r (fun c hc => (hres c hc).2) hch).1
  have t5 : goTrim (fun c => c = underscoreChar) r = r := by
    apply goTrim_eq_self
    · intro c hc; exact decide_eq_false (hh c hc).2.2
    · intro c hc; exact decide_eq_false (hl c hc).2.2
  have hcore : cleanCore r = r := by
    unfold cleanCore
    rw [t1, t2, t3, t4, t5]
  rw [cleanName, hcore, truncateRunes]
  rcases hlen with hlen | hlen
  · rw [if_neg (Nat.not_lt.mpr hlen)]
  · by_cases hb : byteLen r > limit
    · rw [if_pos hb, if_pos (Nat.le_of_eq hlen.symm), ← hlen, List.take_length]
    · rw [if_neg hb]

/-- Claim C1 (refuted by the code, spec violated): the generator does NOT
run to completion on every input.  With an enabled configuration and a
successful response whose candidate consists of 17 CJK characters (51
UTF-8 bytes but only 17 code points), the byte-length guard of
cleanFileName fires and the rune slice runes[:50] is out of range:
GenerateFileName panics instead of returning a value. -/
theorem generate_panics_on_multibyte_candidate :
    generateFileName sampleCfg ("m").data ("notes.txt").data
        (okNet (List.replicate 17 (Char.ofNat 20013))) = none ∧
      cleanFileName (List.replicate 17 (Char.ofNat 20013)) = none ∧
      byteLen (List.replicate 17 (Char.ofNat 20013)) = 51 ∧
      (List.replicate 17 (Char.ofNat 20013)).length = 17 := by decide

/-- Claim C3 (refuted by the code, spec violated): truncation is NOT
triggered by the code-point count.  For a candidate of 18 CJK characters
the cleaned pre-truncation form has 18 code points, at most the 50
allowed, yet cleanFileName does not return it whole: the guard measures 54
BYTES, fires, and the rune slice panics. -/
theorem truncation_guard_counts_bytes :
    cleanCore (List.replicate 18 (Char.ofNat 22909)) =
        List.replicate 18 (Char.ofNat 22909) ∧
      (List.replicate 18 (Char.ofNat 22909)).length ≤ 50 ∧
      cleanFileName (List.replicate 18 (Char.ofNat 22909)) = none := by decide

/-- Claim C2: on every failure of the remote call, GenerateFileName
returns the original file name together with the error, and
GenerateFolderName the default name together with the error. -/
theorem generate_returns_fallback_and_error (cfg : AIRename)
    (msg orig : GoStr) (net : HttpOutcome) (e : CallErr)
    (hen : cfg.enable = true) (hmsg : msg ≠ [])
    (hfail : callAI net = .error e) :
    generateFileName cfg msg orig net = some (orig, some e) ∧
      generateFolderName cfg msg orig net = some (orig, some e) := by
  constructor <;> simp [generateFileName, generateFolderName, hen, hmsg, hfail]

/-- Witness for C2 at the empty-choices response. -/
theorem generate_returns_fallback_and_error_witness :
    generateFileName sampleCfg ("m").data ("notes.txt").data
        (.response 200 (.parsed [] ⟨[], none⟩)) =
      some (("notes.txt").data, some .noChoices) :=
  (generate_returns_fallback_and_error sampleCfg ("m").data ("notes.txt").data
    (.response 200 (.parsed [] ⟨[], none⟩)) .noChoices rfl (by decide) (by decide)).1

/-- Claim C4 counterexample: the sanitizer is not idempotent.  On the
input letter-a, single quote, space, the trailing space protects the quote
from the initial quote trim, so one application yields letter-a, quote;
a second application then strips the exposed quote. -/
theorem sanitize_not_idempotent_cex :
    (cleanFileName ['a', Char.ofNat 39, ' ']).bind cleanFileName ≠
        cleanFileName ['a', Char.ofNat 39, ' '] ∧
      cleanFileName ['a', Char.ofNat 39, ' '] = some ['a', Char.ofNat 39] ∧
      cleanFileName ['a', Char.ofNat 39] = some ['a'] := by decide

/-- Claim C4 (amended): the sanitizer is idempotent on every input whose
sanitized form neither begins nor ends with a quote character, a white
space character or an underscore. -/
theorem sanitize_idempotent_on_clean_edges :
    (∀ s r, cleanFileName s = some r → edgesOk r = true → cleanFileName r = some r) ∧
      (∀ s r, cleanFolderName s = some r → edgesOk r = true → cleanFolderName r = some r) := by
  constructor
  · intro s r h he
    obtain ⟨h1, h2, h3⟩ := cleanName_inv 50 s r h
    exact cleanName_fix 50 r h1 h2 h3 he
  · intro s r h he
    obtain ⟨h1, h2, h3⟩ := cleanName_inv 30 s r h
    exact cleanName_fix 30 r h1 h2 h3 he

/-- Witness for the amended C4 at a concrete sanitized name. -/
theorem sanitize_idempotent_on_clean_edges_witness :
    cleanFileName ("abc").data = some (("abc").data) :=
  sanitize_idempotent_on_clean_edges.1 ("abc").data ("abc").data
    (by decide) (by decide)

/-- Claim C5: with a disabled configuration, or an empty message text,
both generators return the original and default name unchanged with no
error, for every possible network outcome, hence without any network
call. -/
theorem passthrough_disabled_or_empty (cfg : AIRename) (msg orig : GoStr)
    (net : HttpOutcome) (h : cfg.enable = false ∨ msg = []) :
    generateFileName cfg msg orig net = some (orig, none) ∧
      generateFolderName cfg msg orig net = some (orig, none) := by
  rcases h with h | h
  · constructor <;> simp [generateFileName, generateFolderName, h]
  · constructor <;> simp [generateFileName, generateFolderName, h]

/-- Witness for C5 at a disabled configuration. -/
theorem passthrough_disabled_or_empty_witness :
    generateFileName disabledCfg ("m").data ("f.txt").data (.transportErr []) =
      some (("f.txt").data, none) :=
  (passthrough_disabled_or_empty disabledCfg ("m").data ("f.txt").data
    (.transportErr []) (Or.inl rfl)).1

/-- Claim C6: on a successful call with a non-empty sanitized candidate,
GenerateFileName appends the original extension (the text from the last
dot of the original name, inclusive) exactly when the candidate does not
already end with it. -/
theorem extension_reappended (cfg : AIRename) (msg orig cand c : GoStr)
    (net : HttpOutcome) (hen : cfg.enable = true) (hmsg : msg ≠ [])
    (hok : callAI net = .ok cand) (hclean : cleanFileName cand = some c)
    (hne : c ≠ []) :
    generateFileName cfg msg orig net =
      some ((if (filepathExt orig).isSuffixOf c then c
        else c ++ filepathExt orig), none) := by
  by_cases hs : (filepathExt orig).isSuffixOf c = true
  · simp [generateFileName, hen, hmsg, hok, hclean, hne, hs]
  · simp [generateFileName, hen, hmsg, hok, hclean, hne, hs]

/-- Witness for C6: candidate Report with original name notes.txt yields
Report.txt. -/
theorem extension_reappended_witness :
    generateFileName sampleCfg ("m").data ("notes.txt").data
        (okNet (("Report").data)) = some (("Report.txt").data, none) := by
  have h := extension_reappended sampleCfg ("m").data ("notes.txt").data
    (("Report").data) (("Report").data) (okNet (("Report").data))
    rfl (by decide) (by decide) (by decide) (by decide)
  rw [h]; decide

/-- Claim C7 counterexample: the collapse step uses the ASCII regexp white
space class, so a vertical tab (code point 11), which IS white space for
unicode.IsSpace, survives sanitization in the middle of a name: this
sanitizer output contains a white space character. -/
theorem sanitizer_keeps_vertical_tab_cex :
    cleanFileName ['a', Char.ofNat 11, 'b'] = some ['a', Char.ofNat 11, 'b'] ∧
      goIsSpace (Char.ofNat 11) = true := by decide

/-- Claim C7 (amended): the sanitizer replaces every reserved character
with an underscore and collapses runs of ASCII regexp white space and
underscores; the concrete scenario holds, and no sanitizer output contains
a reserved character or an ASCII regexp white space character. -/
theorem sanitizer_output_charset :
    cleanFileName ("  My/File:Name??  ").data = some (("My_File_Name").data) ∧
      (∀ s r, cleanFileName s = some r →
        ∀ c ∈ r, isReservedChar c = false ∧ isReSpace c = false) := by
  refine ⟨by decide, ?_⟩
  intro s r h
  exact (cleanName_inv 50 s r h).1

/-- Witness for the amended C7 at a character of the scenario output. -/
theorem sanitizer_output_charset_witness :
    isReservedChar (Char.ofNat 77) = false ∧ isReSpace (Char.ofNat 77) = false :=
  sanitizer_output_charset.2 ("  My/File:Name??  ").data ("My_File_Name").data
    (by decide) (Char.ofNat 77) (by decide)

/-- Claim C8 counterexample: a 201 response is 2xx but does NOT pass the
status check: the code compares against 200 exactly, so a well-formed 201
response with a usable choice is rejected as a status failure. -/
theorem status_201_rejected_cex :
    callAI (.response 201 (.parsed []
        ⟨[⟨⟨("user").data, ("ok").data⟩⟩], none⟩)) =
      .error (.apiStatus 201 []) ∧ 200 ≤ 201 ∧ 201 < 300 := by decide

/-- Claim C8 (amended): a response fails the status check exactly when its
status differs from 200 (so 2xx statuses other than 200 are failures),
and the failure checks run in source order: transport error, status,
explicit error field, empty choices, the first match short-circuiting the
rest. -/
theorem status_check_is_eq200_and_order :
    (∀ (status : Nat) (body : RespBody), status ≠ 200 →
        callAI (.response status body) = .error (.apiStatus status body.raw)) ∧
      (∀ body : RespBody, isStatusErr (callAI (.response 200 body)) = false) ∧
      (∀ m : GoStr, callAI (.transportErr m) = .error (.sendRequest m)) ∧
      (∀ raw : GoStr, callAI (.response 200 (.malformed raw)) =
        .error (.unmarshal raw)) ∧
      (∀ (raw : GoStr) (choices : List ChatChoice) (e : APIError),
        callAI (.response 200 (.parsed raw ⟨choices, some e⟩)) =
          .error (.apiErrField e.message)) ∧
      (∀ raw : GoStr,
        callAI (.response 200 (.parsed raw ⟨[], none⟩)) = .error .noChoices) := by
  refine ⟨?_, ?_, ?_, ?_, ?_, ?_⟩
  · intro status body h; simp [callAI, h]
  · intro body
    cases body with
    | malformed raw => simp [callAI, isStatusErr]
    | parsed raw resp =>
      rcases resp with ⟨choices, err⟩
      cases err with
      | some e => simp [callAI, isStatusErr]
      | none =>
        cases choices with
        | nil => simp [callAI, isStatusErr]
        | cons c rest => simp [callAI, isStatusErr]
  · intro m; rfl
  · intro raw; simp [callAI]
  · intro raw choices e; simp [callAI]
  · intro raw; simp [callAI]

/-- Witness for the amended C8 at status 404. -/
theorem status_check_is_eq200_and_order_witness :
    callAI (.response 404 (.malformed (("x").data))) =
      .error (.apiStatus 404 (("x").data)) :=
  status_check_is_eq200_and_order.1 404 (.malformed (("x").data)) (by decide)

/-- Claim C9 counterexample: with a disabled configuration and an empty
original name, GenerateFileName returns the empty string: the returned
name is not always non-empty. -/
theorem empty_original_returned_cex :
    generateFileName disabledCfg [] [] (.transportErr []) = some ([], none) := by
  decide

/-- Claim C9 (amended): whenever the original or default name is
non-empty, every value either generator returns carries a non-empty
name. -/
theorem nonempty_name_preserved :
    (∀ cfg msg orig net name e, generateFileName cfg msg orig net = some (name, e) →
        orig ≠ [] → name ≠ []) ∧
      (∀ cfg msg dflt net name e, generateFolderName cfg msg dflt net = some (name, e) →
        dflt ≠ [] → name ≠ []) := by
  constructor
  · intro cfg msg orig net name e h horig
    by_cases hen : cfg.enable = false
    · simp [generateFileName, hen] at h
      rw [← h.1]; exact horig
    · by_cases hmsg : msg = []
      · simp [generateFileName, hen, hmsg] at h
        rw [← h.1]; exact horig
      · cases hc : callAI net with
        | error e2 =>
          simp [generateFileName, hen, hmsg, hc] at h
          rw [← h.1]; exact horig
        | ok cand =>
          cases hcl : cleanFileName cand with
          | none => simp [generateFileName, hen, hmsg, hc, hcl] at h
          | some cleaned =>
            by_cases hne : cleaned = []
            · simp [generateFileName, hen, hmsg, hc, hcl, hne] at h
              rw [← h.1]; exact horig
            · by_cases hsuf : (filepathExt orig).isSuffixOf cleaned = true
              · simp [generateFileName, hen, hmsg, hc, hcl, hne, hsuf] at h
                rw [← h.1]; exact hne
              · simp [generateFileName, hen, hmsg, hc, hcl, hne, hsuf] at h
                rw [← h.1]
                intro hh
                exact hne (List.append_eq_nil.mp hh).1
  · intro cfg msg dflt net name e h hdflt
    by_cases hen : cfg.enable = false
    · simp [generateFolderName, hen] at h
      rw [← h.1]; exact hdflt
    · by_cases hmsg : msg = []
      · simp [generateFolderName, hen, hmsg] at h
        rw [← h.1]; exact hdflt
      · cases hc : callAI net with
        | error e2 =>
          simp [generateFolderName, hen, hmsg, hc] at h
          rw [← h.1]; exact hdflt
        | ok cand =>
          cases hcl : cleanFolderName cand with
          | none => simp [generateFolderName, hen, hmsg, hc, hcl] at h
          | some cleaned =>
            by_cases hne : cleaned = []
            · simp [generateFolderName, hen, hmsg, hc, hcl, hne] at h
              rw [← h.1]; exact hdflt
            · simp [generateFolderName, hen, hmsg, hc, hcl, hne] at h
              rw [← h.1]; exact hne

/-- Witness for the amended C9 at a concrete call. -/
theorem nonempty_name_preserved_witness : (("f").data : GoStr) ≠ [] :=
  nonempty_name_preserved.1 disabledCfg [] (("f").data) (.transportErr [])
    (("f").data) none (by decide) (by decide)

/-- Claim C10: InitRenameService overwrites the shared instance without
marking the once guard; while GetRenameService has never run, the next
GetRenameService call runs the guarded constructor and replaces the
injected instance with one built from the global configuration; once the
guard has run, every GetRenameService call returns the stored instance and
leaves the state unchanged. -/
theorem init_then_get_lifecycle :
    (∀ (cfg : AIRename) (st : PkgState),
        (initRenameService cfg st).onceDone = st.onceDone ∧
          (initRenameService cfg st).renameService =
            some (NewRenameService cfg st.nextId)) ∧
      (∀ (cfg : AIRename) (st : PkgState), st.onceDone = false →
        (getRenameService (initRenameService cfg st)).1 =
            some (NewRenameService globalAIRename (st.nextId + 1)) ∧
          (getRenameService (initRenameService cfg st)).2.renameService =
            some (NewRenameService globalAIRename (st.nextId + 1)) ∧
          (getRenameService (initRenameService cfg st)).2.onceDone = true ∧
          (getRenameService (initRenameService cfg st)).1 ≠
            (initRenameService cfg st).renameService) ∧
      (∀ st : PkgState, st.onceDone = true →
        getRenameService st = (st.renameService, st)) := by
  refine ⟨fun cfg st => ⟨rfl, rfl⟩, ?_, ?_⟩
  · intro cfg st h
    have hget : getRenameService (initRenameService cfg st) =
        (some (NewRenameService globalAIRename (st.nextId + 1)),
          ⟨some (NewRenameService globalAIRename (st.nextId + 1)), true,
            st.nextId + 2⟩) := by
      simp [getRenameService, initRenameService, h]
    refine ⟨by rw [hget], by rw [hget], by rw [hget], ?_⟩
    rw [hget]
    simp only [initRenameService]
    intro heq
    have h2 : (NewRenameService globalAIRename (st.nextId + 1)).id =
        (NewRenameService cfg st.nextId).id := by
      rw [Option.some.inj heq]
    simp [NewRenameService] at h2
  · intro st h
    simp [getRenameService, h]

/-- Witness for C10 from the empty initial state. -/
theorem init_then_get_lifecycle_witness :
    (getRenameService (initRenameService sampleCfg ⟨none, false, 0⟩)).2.onceDone = true :=
  (init_then_get_lifecycle.2.1 sampleCfg ⟨none, false, 0⟩ rfl).2.2.1

end SaveAny
